import Mathlib

/-!
Shallow embedding of `citylearn/agents/rbc.py`: the PI temperature controller
(`PITemperatureController`) and the hour-of-use rule-based controllers
(`HourRBC`, `BasicRBC`).  Python floats are modelled as exact rationals,
Python dicts as association lists, and fallible code as `Option`/`Except`.
-/

namespace RBC

/-! ## Generic association-list dictionary (Python `dict`) -/

/-- Lookup in an association list: first binding for the key wins
(Python `dict` access / `.get`). -/
def alookup {α β : Type} [DecidableEq α] : List (α × β) → α → Option β
  | [], _ => none
  | (k', v) :: t, k => if k = k' then some v else alookup t k

/-- Store a binding: replace the existing binding for the key, else append
(Python `d[k] = v`). -/
def astore {α β : Type} [DecidableEq α] : List (α × β) → α → β → List (α × β)
  | [], k, v => [(k, v)]
  | (k', v') :: t, k, v =>
    if k = k' then (k, v) :: t else (k', v') :: astore t k v

/-! ## Substring test (Python `pat in s`) -/

/-- `leadMatch pat l` is true when `pat` is an initial segment of `l`. -/
def leadMatch : List Char → List Char → Bool
  | [], _ => true
  | _ :: _, [] => false
  | p :: ps, c :: cs => p = c && leadMatch ps cs

/-- `listHasSub text pat` is true when `pat` occurs contiguously in `text`. -/
def listHasSub : List Char → List Char → Bool
  | [], pat => pat.isEmpty
  | c :: ts, pat => leadMatch pat (c :: ts) || listHasSub ts pat

/-- Python's `pat in s` substring containment on strings. -/
def hasSub (s pat : String) : Bool :=
  listHasSub s.data pat.data

/-! ## PI temperature controller: parameters and integral state

The Python integral-error dictionary is keyed by the f-string
`f"{building_idx}_{device_type}"`; since the building index digits contain no
underscore, that concatenation is injective on the keys used, and it is
modelled by the composite key `ℕ × String`. -/

/-- Constructor-time configuration of `PITemperatureController`. -/
structure PIParams where
  kp : ℚ
  ki : ℚ
  temp_deadband : ℚ
  integral_limit : ℚ
  min_power : ℚ
  max_power : ℚ

/-- Default constructor arguments of `PITemperatureController`. -/
def defaultPIParams : PIParams :=
  { kp := 0.2, ki := 0.005, temp_deadband := 0.5, integral_limit := 10,
    min_power := 0, max_power := 1 }

/-- The `integral_errors` dictionary. -/
abbrev IState : Type := List ((ℕ × String) × ℚ)

/-- Lookup of one accumulator (`self.integral_errors.get(key)`). -/
def lookupIE (s : IState) (k : ℕ × String) : Option ℚ :=
  alookup s k

/-- Assignment to one accumulator (`self.integral_errors[key] = v`). -/
def storeIE (s : IState) (k : ℕ × String) (v : ℚ) : IState :=
  astore s k v

/-- The state produced by `PITemperatureController.reset` (and by
construction): an empty `integral_errors` dictionary. -/
def piResetState : IState := []

/-- Symmetric clamp `max(min(x, lim), -lim)` as written in
`_calculate_pi_action` for the integral accumulator. -/
def clampSym (x lim : ℚ) : ℚ :=
  max (min x lim) (-lim)

/-- The output-scaling tail of `_calculate_pi_action`: a positive combined PI
output is scaled into the power band and clamped to
`[min_power, max_power]`; a non-positive output yields action `0.0`. -/
def piOutputAction (p : PIParams) (u : ℚ) : ℚ :=
  if 0 < u then
    max (min (p.min_power + u * (p.max_power - p.min_power)) p.max_power) p.min_power
  else 0

/-- `PITemperatureController._calculate_pi_action`: returns the action value
and the updated `integral_errors` state.  In the deadband the accumulator is
reset and `0.0` returned; otherwise the error is accumulated, clamped to
`[-integral_limit, integral_limit]`, and the combined PI output is scaled into
`[min_power, max_power]` when positive, else the action is `0.0`.
(The Python lazy `0.0` initialisation followed by `+=` and clamp is the same
state transformation as reading the accumulator with default `0`.) -/
def calculatePIAction (p : PIParams) (error : ℚ) (key : ℕ × String) (s : IState) :
    ℚ × IState :=
  if |error| ≤ p.temp_deadband then
    (0, storeIE s key 0)
  else
    let acc := clampSym ((lookupIE s key).getD 0 + error) p.integral_limit
    (piOutputAction p (p.kp * error + p.ki * acc), storeIE s key acc)

/-- The integral state after `n` consecutive `_calculate_pi_action` calls
with the same constant error and key, starting from the empty (all-zero)
accumulator state. -/
def piIter (p : PIParams) (e : ℚ) (key : ℕ × String) : ℕ → IState
  | 0 => []
  | n + 1 => (calculatePIAction p e key (piIter p e key n)).2

/-- The action returned by the `(n+1)`-th of those consecutive calls. -/
def piIterAction (p : PIParams) (e : ℚ) (key : ℕ × String) (n : ℕ) : ℚ :=
  (calculatePIAction p e key (piIter p e key n)).1

/-! ## Raw action maps (the three user-supplied shapes) -/

/-- A `Mapping[int, float]` hour table. -/
abbrev HourTable : Type := List (ℤ × ℚ)

/-- A `Mapping[str, Mapping[int, float]]` device-keyed map. -/
abbrev DeviceMap : Type := List (String × HourTable)

/-- The three shapes a user-supplied action map can take
(`Mapping[int, float]`, `Mapping[str, Mapping[int, float]]`, or a list of the
latter, one per agent). -/
inductive RawActionMap : Type
  | flat : HourTable → RawActionMap
  | byDevice : DeviceMap → RawActionMap
  | perAgent : List DeviceMap → RawActionMap
deriving DecidableEq

/-- The canonical action map: one device-keyed map per agent. -/
abbrev CanonicalMap : Type := List DeviceMap

/-- Structured content of the fatal configuration errors (the `assert` /
`raise` messages in the setters and generators). -/
inductive ConfigError : Type
  | lengthMismatch (expected got : ℕ)
  | missingActions (missing : List String) (agentIndex : Option ℕ)
  | unknownActionName (name : String)
deriving DecidableEq

/-! ## `PITemperatureController.predict` -/

/-- Exact-key `.get(hour, 0.0)` on an hour table, probed with the raw
(possibly non-integer) observed hour: a key `k` matches when `(k : ℚ)` equals
the raw hour. -/
def dictGetHour (tbl : HourTable) (h : ℚ) : ℚ :=
  match tbl.find? (fun kv => decide ((kv.1 : ℚ) = h)) with
  | some kv => kv.2
  | none => 0

/-- One iteration of the per-action-name loop body of
`PITemperatureController.predict`, dispatching on the action name.  `prev` is
the value of the loop-carried Python variable `action_value` from the previous
iteration: in the `electrical_storage` branch with no hour observation the
source appends `action_value` without assigning it, which is a stale value
(or a `NameError`, modelled as `none`, when no iteration assigned it yet).
The result is the appended action value (`none` = `NameError`) and the updated
integral state. -/
def piStep (p : PIParams) (smap : Option RawActionMap) (bIdx : ℕ)
    (coolingSp heatingSp : ℚ) (indoorTemp hour : Option ℚ)
    (name : String) (prev : Option ℚ) (s : IState) : Option ℚ × IState :=
  if hasSub name "electrical_storage" then
    match hour with
    | some h => (some (if 6 ≤ h ∧ h ≤ 14 then 0.11 else -0.067), s)
    | none => (prev, s)
  else if hasSub name "storage" then
    match smap with
    | some (RawActionMap.byDevice m) =>
      match alookup m name with
      | some tbl =>
        match hour with
        | some h => (some (dictGetHour tbl h), s)
        | none => (some 0, s)
      | none => (some 0, s)
    | some _ => (some 0, s)
    | none =>
      match hour with
      | some h =>
        (some (if 9 ≤ h ∧ h ≤ 21 then -0.08
          else if (1 ≤ h ∧ h ≤ 8) ∨ (22 ≤ h ∧ h ≤ 24) then 0.091 else 0), s)
      | none => (some 0, s)
  else if name = "cooling_device" then
    match indoorTemp with
    | some t =>
      let r := calculatePIAction p (t - coolingSp) (bIdx, "cooling") s
      (some r.1, r.2)
    | none => (some 0, s)
  else if name = "heating_device" then
    match indoorTemp with
    | some t =>
      let r := calculatePIAction p (heatingSp - t) (bIdx, "heating") s
      (some r.1, r.2)
    | none => (some 0, s)
  else if name = "cooling_or_heating_device" then
    match indoorTemp with
    | some t =>
      let ce := t - coolingSp
      let he := heatingSp - t
      if p.temp_deadband < ce then
        let s1 := storeIE s (bIdx, "cooling_or_heating_heat") 0
        let r := calculatePIAction p ce (bIdx, "cooling_or_heating_cool") s1
        (some (-r.1), r.2)
      else if p.temp_deadband < he then
        let s1 := storeIE s (bIdx, "cooling_or_heating_cool") 0
        let r := calculatePIAction p he (bIdx, "cooling_or_heating_heat") s1
        (some r.1, r.2)
      else
        (some 0,
          storeIE (storeIE s (bIdx, "cooling_or_heating_cool") 0)
            (bIdx, "cooling_or_heating_heat") 0)
    | none => (some 0, s)
  else
    (some 0, s)

/-- The observation-extraction loop of `PITemperatureController.predict`:
scans the named observation features and records (last occurrence wins)
`indoor_dry_bulb_temperature`, the cooling and heating setpoints, and `hour`. -/
def extractPIObs (names : List String) (vals : List ℚ) :
    Option ℚ × Option ℚ × Option ℚ × Option ℚ :=
  (names.zip vals).foldl
    (fun st nv =>
      if nv.1 = "indoor_dry_bulb_temperature" then
        (some nv.2, st.2.1, st.2.2.1, st.2.2.2)
      else if nv.1 = "indoor_dry_bulb_temperature_cooling_set_point" then
        (st.1, some nv.2, st.2.2.1, st.2.2.2)
      else if nv.1 = "indoor_dry_bulb_temperature_heating_set_point" then
        (st.1, st.2.1, some nv.2, st.2.2.2)
      else if nv.1 = "hour" then
        (st.1, st.2.1, st.2.2.1, some nv.2)
      else st)
    (none, none, none, none)

/-- The inner loop of `PITemperatureController.predict` over one agent's
action names, threading the loop-carried `action_value` and the integral
state; a `NameError` (first component `none`) aborts with the state reached
so far. -/
def piActionsLoop (p : PIParams) (smap : Option RawActionMap) (bIdx : ℕ)
    (coolingSp heatingSp : ℚ) (indoorTemp hour : Option ℚ) :
    List String → Option ℚ → IState → Option (List ℚ) × Option ℚ × IState
  | [], prev, s => (some [], prev, s)
  | nm :: rest, prev, s =>
    match piStep p smap bIdx coolingSp heatingSp indoorTemp hour nm prev s with
    | (none, s') => (none, prev, s')
    | (some v, s') =>
      match piActionsLoop p smap bIdx coolingSp heatingSp indoorTemp hour rest
          (some v) s' with
      | (none, pr, s'') => (none, pr, s'')
      | (some vs, pr, s'') => (some (v :: vs), pr, s'')

/-- The outer loop of `PITemperatureController.predict` over the agents,
extracting the observations and applying the default setpoints
(cooling `24.0`, heating `20.0`) before dispatching each action name. -/
def piAgentsLoop (p : PIParams) (smap : Option RawActionMap) :
    ℕ → List (List String × List String × List ℚ) → Option ℚ → IState →
      Option (List (List ℚ)) × Option ℚ × IState
  | _, [], prev, s => (some [], prev, s)
  | b, (a, n, o) :: rest, prev, s =>
    let e := extractPIObs n o
    let coolingSp := (e.2.1).getD 24
    let heatingSp := (e.2.2.1).getD 20
    match piActionsLoop p smap b coolingSp heatingSp e.1 e.2.2.2 a prev s with
    | (none, pr, s') => (none, pr, s')
    | (some vs, pr, s') =>
      match piAgentsLoop p smap (b + 1) rest pr s' with
      | (none, pr', s'') => (none, pr', s'')
      | (some rest', pr', s'') => (some (vs :: rest'), pr', s'')

/-- `PITemperatureController.predict`: the batch of per-agent action vectors
(`none` when the stale-`action_value` `NameError` is hit) together with the
integral state after the call. -/
def piPredict (p : PIParams) (smap : Option RawActionMap)
    (actionNames obsNames : List (List String)) (observations : List (List ℚ))
    (s : IState) : Option (List (List ℚ)) × IState :=
  let r := piAgentsLoop p smap 0 (actionNames.zip (obsNames.zip observations)) none s
  (r.1, r.2.2)

/-- The integral states reachable by the controller's operations (its
construction, `predict` calls, and `reset` calls), starting from the empty
initial state. -/
inductive PIReachable (p : PIParams) (smap : Option RawActionMap) : IState → Prop
  | init : PIReachable p smap []
  | predictStep (actionNames obsNames : List (List String))
      (observations : List (List ℚ)) (s : IState) :
      PIReachable p smap s →
      PIReachable p smap (piPredict p smap actionNames obsNames observations s).2
  | resetStep (s : IState) : PIReachable p smap s → PIReachable p smap piResetState

/-! ## `HourRBC`: hour resolution and prediction -/

/-- Python 3 `round` (round half to even) on a rational. -/
def pyRound (q : ℚ) : ℤ :=
  if q - ⌊q⌋ < 1 / 2 then ⌊q⌋
  else if 1 / 2 < q - ⌊q⌋ then ⌊q⌋ + 1
  else if ⌊q⌋ % 2 = 0 then ⌊q⌋ else ⌊q⌋ + 1

/-- One step of the candidate-deduplication loop: append the candidate unless
already produced. -/
def dedupStep (acc : List ℤ) (c : ℤ) : List ℤ :=
  if c ∈ acc then acc else acc ++ [c]

/-- The ordered, deduplicated hour-candidate list built in `HourRBC.predict`
from the rounded hour: `h`, `h % 24`, `((h - 1) % 24) + 1`, skipping values
already produced. -/
def hourCandidates (hour : ℤ) : List ℤ :=
  [hour, hour % 24, (hour - 1) % 24 + 1].foldl dedupStep []

/-- The candidate-probing lookup of `HourRBC.predict`: the value of the first
candidate present in the device's hour table, `none` when no candidate is a
key (the `KeyError` raised by the `for ... else` clause). -/
def lookupHourAction (tbl : HourTable) (hour : ℤ) : Option ℚ :=
  (hourCandidates hour).findSome? (fun c => alookup tbl c)

/-- The per-agent body of `HourRBC.predict` over the agent's action names. -/
def hourAgentActions (m : DeviceMap) (a : List String) (hour : ℤ) :
    Option (List ℚ) :=
  a.mapM (fun nm => do
    let tbl ← alookup m nm
    lookupHourAction tbl hour)

/-- `HourRBC.predict` with a non-null canonical action map: per agent, read
the raw `hour` observation, round it, and resolve every action name through
the candidate lookup; any `KeyError`/`IndexError` is `none`. -/
def hourRBCPredict :
    CanonicalMap → List (List String) → List (List String) → List (List ℚ) →
      Option (List (List ℚ))
  | m :: ms, a :: as', n :: ns', o :: os' => do
    let idx ← n.findIdx? (fun x => x = "hour")
    let hourObservation ← o.get? idx
    let acts ← hourAgentActions m a (pyRound hourObservation)
    let rest ← hourRBCPredict ms as' ns' os'
    pure (acts :: rest)
  | _, _, _, _ => some []

/-! ## `HourRBC.action_map` setter (the normalizer) -/

/-- `HourRBC.__verify_action_map` for one agent's (deduplicated) action
names: the names with no entry in the supplied device map. -/
def missingActionsFor (m : DeviceMap) (n : List String) : List String :=
  n.dedup.filter (fun a => (alookup m a).isNone)

/-- The verification loop over a list-shaped action map zipped with the
per-agent action names, reporting the first agent with missing coverage. -/
def verifyAgents : ℕ → List DeviceMap → List (List String) → Option ConfigError
  | _, [], _ => none
  | _, _ :: _, [] => none
  | i, m :: ms, n :: ns =>
    let missing := missingActionsFor m n
    if missing = [] then verifyAgents (i + 1) ms ns
    else some (ConfigError.missingActions missing (some i))

/-- `HourRBC.action_map` setter: normalizes the three raw shapes (or `None`)
into the canonical per-agent map, or fails with the configuration error
raised by the `assert`s. -/
def hourRBCSetActionMap (raw : Option RawActionMap) (ns : List (List String)) :
    Except ConfigError (Option CanonicalMap) :=
  match raw with
  | none => Except.ok none
  | some (RawActionMap.perAgent ms) =>
    if ms.length = ns.length then
      match verifyAgents 0 ms ns with
      | some e => Except.error e
      | none => Except.ok (some ms)
    else
      Except.error (ConfigError.lengthMismatch ns.length ms.length)
  | some (RawActionMap.byDevice m) =>
    let allNames := ns.flatten.dedup
    let missing := allNames.filter (fun a => (alookup m a).isNone)
    if missing = [] then
      Except.ok (some (ns.map (fun n =>
        n.dedup.map (fun a => (a, (alookup m a).getD [])))))
    else
      Except.error (ConfigError.missingActions missing none)
  | some (RawActionMap.flat f) =>
    Except.ok (some (ns.map (fun n => n.dedup.map (fun a => (a, f)))))

/-! ## `BasicRBC`: the default schedule generator -/

/-- Modelled from the spec: `Building.get_periodic_observation_metadata()['hour']`
is defined outside this core (in the building model) and, per the spec, hour
keys range over the 1–24 convention; the generators iterate it to build each
24-entry table. -/
def periodicHours : List ℤ :=
  (List.range 24).map (fun i => (i : ℤ) + 1)

/-- `BasicRBC` storage band values: discharge 8.0% between hours 9–21, charge
9.1% between 1–8 and 22–24. -/
def basicStorageValue (h : ℤ) : ℚ :=
  if 9 ≤ h ∧ h ≤ 21 then -0.08
  else if (1 ≤ h ∧ h ≤ 8) ∨ (22 ≤ h ∧ h ≤ 24) then 0.091
  else 0

/-- `BasicRBC` cooling-device band values. -/
def basicCoolingValue (h : ℤ) : ℚ :=
  if 9 ≤ h ∧ h ≤ 21 then 0.8
  else if (1 ≤ h ∧ h ≤ 8) ∨ (22 ≤ h ∧ h ≤ 24) then 0.4
  else 0

/-- `BasicRBC` heating-device band values. -/
def basicHeatingValue (h : ℤ) : ℚ :=
  if 9 ≤ h ∧ h ≤ 21 then 0.4
  else if (1 ≤ h ∧ h ≤ 8) ∨ (22 ≤ h ∧ h ≤ 24) then 0.8
  else 0

/-- `BasicRBC` combined cooling-or-heating band values. -/
def basicCoolHeatValue (h : ℤ) : ℚ :=
  if h < 7 then 0.4 else if h < 21 then -0.4 else 0.8

/-- Build one generated 24-hour table from a band-value function. -/
def basicDeviceTable (v : ℤ → ℚ) : HourTable :=
  periodicHours.map (fun h => (h, v h))

/-- Whether a device-action name matches one of the patterns `BasicRBC`'s
generator recognizes. -/
def basicRecognized (n : String) : Bool :=
  hasSub n "storage" || decide (n = "cooling_device") ||
    decide (n = "heating_device") || decide (n = "cooling_or_heating_device")

/-- The generator loop of the `BasicRBC.action_map` setter over the
deduplicated union of action names: one table per recognized pattern, fatal
`Unknown action name` otherwise. -/
def basicTables : List String → Except ConfigError DeviceMap
  | [] => Except.ok []
  | n :: rest =>
    if hasSub n "storage" then
      (basicTables rest).map (fun d => (n, basicDeviceTable basicStorageValue) :: d)
    else if n = "cooling_device" then
      (basicTables rest).map (fun d => (n, basicDeviceTable basicCoolingValue) :: d)
    else if n = "heating_device" then
      (basicTables rest).map (fun d => (n, basicDeviceTable basicHeatingValue) :: d)
    else if n = "cooling_or_heating_device" then
      (basicTables rest).map (fun d => (n, basicDeviceTable basicCoolHeatValue) :: d)
    else
      Except.error (ConfigError.unknownActionName n)

/-- `BasicRBC.action_map` setter with `action_map is None`: generate the
device-keyed map over the union of the agents' action names. -/
def basicRBCGenerate (ns : List (List String)) : Except ConfigError DeviceMap :=
  basicTables ns.flatten.dedup

/-- `BasicRBC.action_map` setter: generate the default map when none is
supplied, then normalize through the `HourRBC.action_map` setter. -/
def basicRBCSetActionMap (raw : Option RawActionMap) (ns : List (List String)) :
    Except ConfigError (Option CanonicalMap) :=
  match raw with
  | none => do
    let g ← basicRBCGenerate ns
    hourRBCSetActionMap (some (RawActionMap.byDevice g)) ns
  | some r => hourRBCSetActionMap (some r) ns

end RBC

/-! ## Verification -/

namespace RBC

theorem alookup_astore_self {α β : Type} [DecidableEq α] (l : List (α × β)) (k : α) (v : β) :
    alookup (astore l k v) k = some v := by
  induction l with
  | nil => simp [astore, alookup]
  | cons hd t ih =>
    obtain ⟨k', v'⟩ := hd
    by_cases h : k = k'
    · subst h; simp [astore, alookup]
    · simp [astore, alookup, h, ih]

theorem alookup_astore_ne {α β : Type} [DecidableEq α] (l : List (α × β)) (k k' : α) (v : β)
    (h : k ≠ k') : alookup (astore l k' v) k = alookup l k := by
  induction l with
  | nil => simp [astore, alookup, h]
  | cons hd t ih =>
    obtain ⟨k₀, v₀⟩ := hd
    by_cases h0 : k' = k₀
    · subst h0; simp [astore, alookup, h]
    · by_cases h1 : k = k₀ <;> simp [astore, alookup, h0, h1, ih]

theorem mem_astore {α β : Type} [DecidableEq α] (l : List (α × β)) (k : α) (v : β)
    (x : α × β) (hx : x ∈ astore l k v) : x = (k, v) ∨ x ∈ l := by
  induction l with
  | nil => simpa [astore] using hx
  | cons hd t ih =>
    obtain ⟨k₀, v₀⟩ := hd
    by_cases h0 : k = k₀
    · subst h0
      simp only [astore, if_true, List.mem_cons, eq_self_iff_true, ite_true] at hx
      rcases hx with h | h
      · exact Or.inl h
      · exact Or.inr (List.mem_cons_of_mem _ h)
    · simp only [astore, if_neg h0, List.mem_cons] at hx
      rcases hx with h | h
      · exact Or.inr (by simp [h])
      · rcases ih h with h' | h'
        · exact Or.inl h'
        · exact Or.inr (List.mem_cons_of_mem _ h')

theorem alookup_map_fn {α β : Type} [DecidableEq α] (g : α → β) :
    ∀ (l : List α) (a : α), a ∈ l →
      alookup (l.map (fun x => (x, g x))) a = some (g a) := by
  intro l
  induction l with
  | nil => intro a ha; simp at ha
  | cons x xs ih =>
    intro a ha
    by_cases hax : a = x
    · subst hax; simp [alookup]
    · rcases List.mem_cons.1 ha with h | h
      · exact absurd h hax
      · simp [alookup, hax, ih a h]

theorem findSome?_eq_find?_bind {α β : Type} (f : α → Option β) (l : List α) :
    l.findSome? f = (l.find? (fun c => (f c).isSome)).bind f := by
  induction l with
  | nil => rfl
  | cons a l ih =>
    cases hfa : f a with
    | some b =>
      rw [List.findSome?_cons_of_isSome _ (by simp [hfa]),
        List.find?_cons_of_pos _ (by simp [hfa])]
      simp [hfa]
    | none =>
      rw [List.findSome?_cons_of_isNone _ (by simp [hfa]),
        List.find?_cons_of_neg _ (by simp [hfa])]
      exact ih

theorem mem_foldl_dedupStep_of_mem_acc :
    ∀ (l acc : List ℤ) (x : ℤ), x ∈ acc → x ∈ l.foldl dedupStep acc := by
  intro l
  induction l with
  | nil => intro acc x hx; simpa using hx
  | cons c t ih =>
    intro acc x hx
    have hx' : x ∈ dedupStep acc c := by
      unfold dedupStep
      split
      · exact hx
      · exact List.mem_append_left _ hx
    simpa [List.foldl_cons] using ih (dedupStep acc c) x hx'

theorem mem_foldl_dedupStep_of_mem :
    ∀ (l acc : List ℤ) (x : ℤ), x ∈ l → x ∈ l.foldl dedupStep acc := by
  intro l
  induction l with
  | nil => intro acc x hx; simp at hx
  | cons c t ih =>
    intro acc x hx
    rcases List.mem_cons.1 hx with h | h
    · subst h
      have hc : x ∈ dedupStep acc x := by
        unfold dedupStep
        split
        · assumption
        · simp
      simpa [List.foldl_cons] using mem_foldl_dedupStep_of_mem_acc t (dedupStep acc x) x hc
    · simpa [List.foldl_cons] using ih (dedupStep acc c) x h

theorem mem_hourCandidates_self (h : ℤ) : h ∈ hourCandidates h :=
  mem_foldl_dedupStep_of_mem _ _ _ (by simp)

theorem mem_hourCandidates_mod (h : ℤ) : h % 24 ∈ hourCandidates h :=
  mem_foldl_dedupStep_of_mem _ _ _ (by simp)

theorem mem_hourCandidates_wrap (h : ℤ) : (h - 1) % 24 + 1 ∈ hourCandidates h :=
  mem_foldl_dedupStep_of_mem _ _ _ (by simp)

theorem alookup_basicTable_isSome (v : ℤ → ℚ) (c : ℤ) (h1 : 1 ≤ c) (h2 : c ≤ 24) :
    (alookup (basicDeviceTable v) c).isSome := by
  have hc : c ∈ periodicHours := by
    interval_cases c <;> decide
  rw [basicDeviceTable, alookup_map_fn v periodicHours c hc]
  rfl

/-- C1: with a non-null canonical action map, the `HourRBC` hour lookup forms
the deduplicated candidate list `[h, h % 24, ((h - 1) % 24) + 1]`, probes the
device's hour table in that order returning the first hit, fails exactly when
no candidate is a key, and on tables keyed over all of `1..24` or all of
`0..23` resolves every raw hour in `{-1, ..., 25}` without error. -/
theorem hour_lookup_resolution :
    (∀ (tbl : HourTable) (h : ℤ),
        lookupHourAction tbl h = none ↔ ∀ c ∈ hourCandidates h, alookup tbl c = none)
    ∧ (∀ (tbl : HourTable) (h : ℤ),
        lookupHourAction tbl h =
          ((hourCandidates h).find? (fun c => (alookup tbl c).isSome)).bind
            (fun c => alookup tbl c))
    ∧ (∀ tbl : HourTable, (∀ c : ℤ, 1 ≤ c → c ≤ 24 → (alookup tbl c).isSome) →
        ∀ h : ℤ, -1 ≤ h → h ≤ 25 → (lookupHourAction tbl h).isSome)
    ∧ (∀ tbl : HourTable, (∀ c : ℤ, 0 ≤ c → c ≤ 23 → (alookup tbl c).isSome) →
        ∀ h : ℤ, -1 ≤ h → h ≤ 25 → (lookupHourAction tbl h).isSome) := by
  refine ⟨?_, ?_, ?_, ?_⟩
  · intro tbl h
    simp [lookupHourAction, List.findSome?_eq_none_iff]
  · intro tbl h
    exact findSome?_eq_find?_bind _ _
  · intro tbl hcov h _ _
    have hb1 : 0 ≤ (h - 1) % 24 := Int.emod_nonneg _ (by norm_num)
    have hb2 : (h - 1) % 24 < 24 := Int.emod_lt_of_pos _ (by norm_num)
    rw [lookupHourAction, List.findSome?_isSome_iff]
    exact ⟨(h - 1) % 24 + 1, mem_hourCandidates_wrap h, hcov _ (by omega) (by omega)⟩
  · intro tbl hcov h _ _
    have hb1 : 0 ≤ h % 24 := Int.emod_nonneg _ (by norm_num)
    have hb2 : h % 24 < 24 := Int.emod_lt_of_pos _ (by norm_num)
    rw [lookupHourAction, List.findSome?_isSome_iff]
    exact ⟨h % 24, mem_hourCandidates_mod h, hcov _ (by omega) (by omega)⟩

theorem hour_lookup_resolution_witness :
    (lookupHourAction (basicDeviceTable basicStorageValue) 0).isSome ∧
      lookupHourAction [((5 : ℤ), (1 : ℚ))] 12 = none :=
  ⟨hour_lookup_resolution.2.2.1 (basicDeviceTable basicStorageValue)
      (fun c h1 h2 => alookup_basicTable_isSome basicStorageValue c h1 h2) 0
      (by norm_num) (by norm_num),
    (hour_lookup_resolution.1 _ _).2 (by decide)⟩

/-- C4: for any error inside the deadband, `_calculate_pi_action` returns
`0.0` and resets that key's integral accumulator to `0.0`, regardless of the
accumulator's previous value. -/
theorem pi_deadband_resets (p : PIParams) (e : ℚ) (k : ℕ × String) (s : IState)
    (h : |e| ≤ p.temp_deadband) :
    (calculatePIAction p e k s).1 = 0 ∧
      lookupIE (calculatePIAction p e k s).2 k = some 0 := by
  simp [calculatePIAction, h, lookupIE, storeIE, alookup_astore_self]

theorem pi_deadband_resets_witness :
    (calculatePIAction defaultPIParams 0.3 (0, "cooling") [((0, "cooling"), 7)]).1 = 0 ∧
      lookupIE (calculatePIAction defaultPIParams 0.3 (0, "cooling")
        [((0, "cooling"), 7)]).2 (0, "cooling") = some 0 :=
  pi_deadband_resets defaultPIParams 0.3 (0, "cooling") [((0, "cooling"), 7)]
    (by norm_num [defaultPIParams, abs_of_nonneg])

theorem clampSym_of_lim_nonpos (x lim : ℚ) (h : lim ≤ 0) : clampSym x lim = -lim :=
  max_eq_right (le_trans (min_le_right _ _) (by linarith))

theorem clampSym_of_nonneg (x lim : ℚ) (hx : 0 ≤ x) (hl : 0 ≤ lim) :
    clampSym x lim = min x lim :=
  max_eq_left (le_min (by linarith) (by linarith))

theorem clampSym_of_nonpos (x lim : ℚ) (hx : x ≤ 0) (hl : 0 ≤ lim) :
    clampSym x lim = max x (-lim) := by
  rw [clampSym, min_eq_left (by linarith : x ≤ lim)]

theorem clampSym_mono_left (x y lim : ℚ) (h : x ≤ y) : clampSym x lim ≤ clampSym y lim :=
  max_le_max (min_le_min h le_rfl) le_rfl

theorem clampSym_add_constant (e lim m : ℚ) (hm : 0 ≤ m) :
    clampSym (clampSym (m * e) lim + e) lim = clampSym ((m + 1) * e) lim := by
  rcases le_total lim 0 with hl | hl
  · rw [clampSym_of_lim_nonpos _ _ hl, clampSym_of_lim_nonpos _ _ hl]
  · rcases le_total 0 e with he | he
    · have hx : 0 ≤ m * e := mul_nonneg hm he
      rw [clampSym_of_nonneg _ _ hx hl]
      rcases le_total (m * e) lim with hc | hc
      · rw [min_eq_left hc]
        congr 1
        ring
      · rw [min_eq_right hc, clampSym_of_nonneg _ _ (by linarith) hl,
          clampSym_of_nonneg _ _ (by nlinarith) hl,
          min_eq_right (by linarith), min_eq_right (by nlinarith)]
    · have hx : m * e ≤ 0 := mul_nonpos_of_nonneg_of_nonpos hm he
      rw [clampSym_of_nonpos _ _ hx hl]
      rcases le_total (-lim) (m * e) with hc | hc
      · rw [max_eq_left hc]
        congr 1
        ring
      · rw [max_eq_right hc, clampSym_of_nonpos _ _ (by linarith) hl,
          clampSym_of_nonpos _ _ (by nlinarith) hl,
          max_eq_right (by linarith), max_eq_right (by nlinarith)]

theorem calculatePIAction_active (p : PIParams) (e : ℚ) (key : ℕ × String) (s : IState)
    (hdb : p.temp_deadband < |e|) :
    calculatePIAction p e key s =
      (piOutputAction p (p.kp * e +
          p.ki * clampSym ((lookupIE s key).getD 0 + e) p.integral_limit),
        storeIE s key (clampSym ((lookupIE s key).getD 0 + e) p.integral_limit)) := by
  rw [calculatePIAction, if_neg (not_le.2 hdb)]

theorem lookupIE_storeIE_self (s : IState) (k : ℕ × String) (v : ℚ) :
    lookupIE (storeIE s k v) k = some v :=
  alookup_astore_self s k v

theorem lookupIE_storeIE_ne (s : IState) (k k' : ℕ × String) (v : ℚ) (h : k ≠ k') :
    lookupIE (storeIE s k' v) k = lookupIE s k :=
  alookup_astore_ne s k k' v h

theorem piIter_acc (p : PIParams) (e : ℚ) (key : ℕ × String)
    (hdb : p.temp_deadband < |e|) :
    ∀ n : ℕ, clampSym ((lookupIE (piIter p e key n) key).getD 0 + e) p.integral_limit =
      clampSym (((n : ℚ) + 1) * e) p.integral_limit := by
  intro n
  induction n with
  | zero =>
    simp [piIter, lookupIE, alookup]
  | succ n ih =>
    have hstep : piIter p e key (n + 1) =
        storeIE (piIter p e key n) key
          (clampSym ((lookupIE (piIter p e key n) key).getD 0 + e) p.integral_limit) := by
      rw [piIter, calculatePIAction_active p e key _ hdb]
    rw [hstep, lookupIE_storeIE_self, Option.getD_some, ih,
      clampSym_add_constant e p.integral_limit ((n : ℚ) + 1) (by positivity)]
    congr 1
    push_cast
    ring

theorem piIter_lookup (p : PIParams) (e : ℚ) (key : ℕ × String)
    (hdb : p.temp_deadband < |e|) (n : ℕ) :
    lookupIE (piIter p e key (n + 1)) key =
      some (clampSym (((n : ℚ) + 1) * e) p.integral_limit) := by
  have hstep : piIter p e key (n + 1) =
      storeIE (piIter p e key n) key
        (clampSym ((lookupIE (piIter p e key n) key).getD 0 + e) p.integral_limit) := by
    rw [piIter, calculatePIAction_active p e key _ hdb]
  rw [hstep, lookupIE_storeIE_self, piIter_acc p e key hdb n]

theorem piOutputAction_of_nonpos (p : PIParams) (u : ℚ) (hu : u ≤ 0) :
    piOutputAction p u = 0 :=
  if_neg (not_lt.2 hu)

theorem piOutputAction_mono (p : PIParams) (hmin : 0 ≤ p.min_power)
    (hmm : p.min_power ≤ p.max_power) (u u' : ℚ) (h : u ≤ u') :
    piOutputAction p u ≤ piOutputAction p u' := by
  unfold piOutputAction
  by_cases hu' : 0 < u'
  · rw [if_pos hu']
    by_cases hu : 0 < u
    · rw [if_pos hu]
      exact max_le_max (min_le_min (by nlinarith) le_rfl) le_rfl
    · rw [if_neg hu]
      exact le_trans hmin (le_max_right _ _)
  · rw [if_neg hu', if_neg (fun hc => hu' (lt_of_lt_of_le hc h))]

theorem piIterAction_formula (p : PIParams) (e : ℚ) (key : ℕ × String)
    (hdb : p.temp_deadband < |e|) (n : ℕ) :
    piIterAction p e key n =
      piOutputAction p (p.kp * e +
        p.ki * clampSym (((n : ℚ) + 1) * e) p.integral_limit) := by
  rw [piIterAction, calculatePIAction_active p e key _ hdb, piIter_acc p e key hdb n]

/-- C2: for a constant error `e` with `abs(e) > temp_deadband` fed to the PI
controller for the same key starting from a zero accumulator, after the
`n`-th call the accumulator equals `clamp(n*e, -integral_limit,
integral_limit)`, and (for nonnegative gains and a power band
`0 ≤ min_power ≤ max_power`) the returned actions are monotonically
non-decreasing in `n` (constant once clamped). -/
theorem pi_constant_error_integral (p : PIParams) (e : ℚ) (key : ℕ × String)
    (hdb : p.temp_deadband < |e|) (hkp : 0 ≤ p.kp) (hki : 0 ≤ p.ki)
    (hmin : 0 ≤ p.min_power) (hmm : p.min_power ≤ p.max_power) :
    (∀ n : ℕ, lookupIE (piIter p e key (n + 1)) key =
        some (clampSym (((n : ℚ) + 1) * e) p.integral_limit))
    ∧ ∀ n : ℕ, piIterAction p e key n ≤ piIterAction p e key (n + 1) := by
  refine ⟨piIter_lookup p e key hdb, ?_⟩
  intro n
  rw [piIterAction_formula p e key hdb n, piIterAction_formula p e key hdb (n + 1)]
  rcases le_total 0 e with he | he
  · apply piOutputAction_mono p hmin hmm
    have hA : clampSym (((n : ℚ) + 1) * e) p.integral_limit ≤
        clampSym (((((n : ℕ) + 1 : ℕ) : ℚ) + 1) * e) p.integral_limit := by
      exact clampSym_mono_left _ _ _ (by push_cast; nlinarith)
    nlinarith [hA]
  · rcases le_total p.integral_limit 0 with hl | hl
    · rw [clampSym_of_lim_nonpos _ _ hl, clampSym_of_lim_nonpos _ _ hl]
    · have hx1 : ((n : ℚ) + 1) * e ≤ 0 :=
        mul_nonpos_of_nonneg_of_nonpos (by positivity) he
      have hx2 : (((((n : ℕ) + 1 : ℕ) : ℚ)) + 1) * e ≤ 0 :=
        mul_nonpos_of_nonneg_of_nonpos (by positivity) he
      have h1 : clampSym (((n : ℚ) + 1) * e) p.integral_limit ≤ 0 := by
        rw [clampSym_of_nonpos _ _ hx1 hl]
        exact max_le hx1 (by linarith)
      have h2 : clampSym (((((n : ℕ) + 1 : ℕ) : ℚ) + 1) * e) p.integral_limit ≤ 0 := by
        rw [clampSym_of_nonpos _ _ hx2 hl]
        exact max_le hx2 (by linarith)
      have hpe : p.kp * e ≤ 0 := mul_nonpos_of_nonneg_of_nonpos hkp he
      have hi1 : p.ki * clampSym (((n : ℚ) + 1) * e) p.integral_limit ≤ 0 :=
        mul_nonpos_of_nonneg_of_nonpos hki h1
      have hi2 : p.ki * clampSym (((((n : ℕ) + 1 : ℕ) : ℚ) + 1) * e) p.integral_limit ≤ 0 :=
        mul_nonpos_of_nonneg_of_nonpos hki h2
      rw [piOutputAction_of_nonpos p _ (by linarith),
        piOutputAction_of_nonpos p _ (by linarith)]

theorem pi_constant_error_integral_witness :
    defaultPIParams.temp_deadband < |(1 : ℚ)| ∧
      lookupIE (piIter defaultPIParams 1 (0, "cooling") 3) (0, "cooling") =
        some (clampSym ((((2 : ℕ) : ℚ) + 1) * 1) defaultPIParams.integral_limit) :=
  ⟨by norm_num [defaultPIParams],
    (pi_constant_error_integral defaultPIParams 1 (0, "cooling")
      (by norm_num [defaultPIParams]) (by norm_num [defaultPIParams])
      (by norm_num [defaultPIParams]) (by norm_num [defaultPIParams])
      (by norm_num [defaultPIParams])).1 2⟩

theorem keysNeOfSnd {b : ℕ} {x y : String} (h : x ≠ y) :
    ((b, x) : ℕ × String) ≠ (b, y) :=
  fun hEq => h (congrArg Prod.snd hEq)

theorem lookupIE_calc_ne (p : PIParams) (e : ℚ) (k k' : ℕ × String) (s : IState)
    (h : k' ≠ k) : lookupIE (calculatePIAction p e k s).2 k' = lookupIE s k' := by
  by_cases hd : |e| ≤ p.temp_deadband
  · rw [calculatePIAction, if_pos hd]
    exact lookupIE_storeIE_ne s k' k 0 h
  · rw [calculatePIAction, if_neg hd]
    exact lookupIE_storeIE_ne s k' k _ h

theorem piStep_combined (p : PIParams) (smap : Option RawActionMap) (b : ℕ)
    (csp hsp t : ℚ) (hour : Option ℚ) (prev : Option ℚ) (s : IState) :
    piStep p smap b csp hsp (some t) hour "cooling_or_heating_device" prev s =
      (if p.temp_deadband < t - csp then
        (some (-(calculatePIAction p (t - csp) (b, "cooling_or_heating_cool")
            (storeIE s (b, "cooling_or_heating_heat") 0)).1),
          (calculatePIAction p (t - csp) (b, "cooling_or_heating_cool")
            (storeIE s (b, "cooling_or_heating_heat") 0)).2)
      else if p.temp_deadband < hsp - t then
        (some (calculatePIAction p (hsp - t) (b, "cooling_or_heating_heat")
            (storeIE s (b, "cooling_or_heating_cool") 0)).1,
          (calculatePIAction p (hsp - t) (b, "cooling_or_heating_heat")
            (storeIE s (b, "cooling_or_heating_cool") 0)).2)
      else
        (some 0, storeIE (storeIE s (b, "cooling_or_heating_cool") 0)
          (b, "cooling_or_heating_heat") 0)) := by
  rfl

/-- C3: for a `cooling_or_heating_device` prediction with the indoor
temperature present, an active cooling error resets the heating-role
accumulator and emits the negated PI action on the cooling error; an active
heating error resets the cooling-role accumulator and emits the positive PI
action on the heating error; otherwise both accumulators are reset and `0.0`
is emitted — so at most one of the two role accumulators is nonzero
immediately after any such call. -/
theorem pi_combined_mutual_exclusion (p : PIParams) (smap : Option RawActionMap)
    (b : ℕ) (csp hsp t : ℚ) (hour : Option ℚ) (prev : Option ℚ) (s : IState) :
    (p.temp_deadband < t - csp →
      piStep p smap b csp hsp (some t) hour "cooling_or_heating_device" prev s =
        (some (-(calculatePIAction p (t - csp) (b, "cooling_or_heating_cool")
            (storeIE s (b, "cooling_or_heating_heat") 0)).1),
          (calculatePIAction p (t - csp) (b, "cooling_or_heating_cool")
            (storeIE s (b, "cooling_or_heating_heat") 0)).2) ∧
      lookupIE (piStep p smap b csp hsp (some t) hour "cooling_or_heating_device"
          prev s).2 (b, "cooling_or_heating_heat") = some 0)
    ∧ (¬ p.temp_deadband < t - csp → p.temp_deadband < hsp - t →
      piStep p smap b csp hsp (some t) hour "cooling_or_heating_device" prev s =
        (some (calculatePIAction p (hsp - t) (b, "cooling_or_heating_heat")
            (storeIE s (b, "cooling_or_heating_cool") 0)).1,
          (calculatePIAction p (hsp - t) (b, "cooling_or_heating_heat")
            (storeIE s (b, "cooling_or_heating_cool") 0)).2) ∧
      lookupIE (piStep p smap b csp hsp (some t) hour "cooling_or_heating_device"
          prev s).2 (b, "cooling_or_heating_cool") = some 0)
    ∧ (¬ p.temp_deadband < t - csp → ¬ p.temp_deadband < hsp - t →
      (piStep p smap b csp hsp (some t) hour "cooling_or_heating_device" prev s).1 =
        some 0 ∧
      lookupIE (piStep p smap b csp hsp (some t) hour "cooling_or_heating_device"
          prev s).2 (b, "cooling_or_heating_cool") = some 0 ∧
      lookupIE (piStep p smap b csp hsp (some t) hour "cooling_or_heating_device"
          prev s).2 (b, "cooling_or_heating_heat") = some 0)
    ∧ ((lookupIE (piStep p smap b csp hsp (some t) hour "cooling_or_heating_device"
          prev s).2 (b, "cooling_or_heating_cool")).getD 0 = 0 ∨
       (lookupIE (piStep p smap b csp hsp (some t) hour "cooling_or_heating_device"
          prev s).2 (b, "cooling_or_heating_heat")).getD 0 = 0) := by
  refine ⟨?_, ?_, ?_, ?_⟩
  · intro hce
    refine ⟨by rw [piStep_combined, if_pos hce], ?_⟩
    rw [piStep_combined, if_pos hce]
    dsimp only
    rw [lookupIE_calc_ne _ _ _ _ _ (keysNeOfSnd (by decide)), lookupIE_storeIE_self]
  · intro hce hhe
    refine ⟨by rw [piStep_combined, if_neg hce, if_pos hhe], ?_⟩
    rw [piStep_combined, if_neg hce, if_pos hhe]
    dsimp only
    rw [lookupIE_calc_ne _ _ _ _ _ (keysNeOfSnd (by decide)), lookupIE_storeIE_self]
  · intro hce hhe
    refine ⟨by rw [piStep_combined, if_neg hce, if_neg hhe], ?_, ?_⟩
    · rw [piStep_combined, if_neg hce, if_neg hhe]
      dsimp only
      rw [lookupIE_storeIE_ne _ _ _ _ (keysNeOfSnd (by decide)), lookupIE_storeIE_self]
    · rw [piStep_combined, if_neg hce, if_neg hhe]
      dsimp only
      rw [lookupIE_storeIE_self]
  · by_cases hce : p.temp_deadband < t - csp
    · right
      rw [piStep_combined, if_pos hce]
      dsimp only
      rw [lookupIE_calc_ne _ _ _ _ _ (keysNeOfSnd (by decide)), lookupIE_storeIE_self]
      rfl
    · by_cases hhe : p.temp_deadband < hsp - t
      · left
        rw [piStep_combined, if_neg hce, if_pos hhe]
        dsimp only
        rw [lookupIE_calc_ne _ _ _ _ _ (keysNeOfSnd (by decide)), lookupIE_storeIE_self]
        rfl
      · left
        rw [piStep_combined, if_neg hce, if_neg hhe]
        dsimp only
        rw [lookupIE_storeIE_ne _ _ _ _ (keysNeOfSnd (by decide)), lookupIE_storeIE_self]
        rfl

theorem pi_combined_mutual_exclusion_witness :
    lookupIE (piStep defaultPIParams none 0 24 20 (some 26) none
        "cooling_or_heating_device" none
        [((0, "cooling_or_heating_heat"), 5)]).2 (0, "cooling_or_heating_heat") =
      some 0 :=
  ((pi_combined_mutual_exclusion defaultPIParams none 0 24 20 26 none none
      [((0, "cooling_or_heating_heat"), 5)]).1
    (by norm_num [defaultPIParams])).2

/-- C8: in `PITemperatureController.predict`, any action name containing
`electrical_storage` gets the fixed action `+0.11` when the observed hour is
between 6 and 14 inclusive and `-0.067` otherwise, independent of any
supplied storage action map, with the integral state unchanged. -/
theorem pi_electrical_storage_fixed (p : PIParams) (smap : Option RawActionMap)
    (b : ℕ) (csp hsp : ℚ) (indoorTemp : Option ℚ) (prev : Option ℚ) (s : IState)
    (name : String) (hname : hasSub name "electrical_storage" = true) (h : ℚ) :
    piStep p smap b csp hsp indoorTemp (some h) name prev s =
      (some (if 6 ≤ h ∧ h ≤ 14 then 0.11 else -0.067), s) := by
  rw [piStep.eq_def, if_pos hname]

theorem pi_electrical_storage_fixed_witness :
    piStep defaultPIParams none 0 24 20 none (some 10) "electrical_storage" none [] =
      (some 0.11, []) ∧
    piStep defaultPIParams none 0 24 20 none (some 15) "electrical_storage" none [] =
      (some (-0.067), []) := by
  constructor
  · rw [pi_electrical_storage_fixed defaultPIParams none 0 24 20 none none []
      "electrical_storage" (by decide) 10]
    norm_num
  · rw [pi_electrical_storage_fixed defaultPIParams none 0 24 20 none none []
      "electrical_storage" (by decide) 15]
    norm_num

/-- C10: in `PITemperatureController.predict`, a storage action name not
containing `electrical_storage` under a non-null storage action map emits the
exact-key map entry for the raw observed hour (default `0.0` when that exact
hour key is absent) when the name is a key of a device-keyed map and the hour
is present; it emits `0.0` when the name is not a key, when the hour is
absent, or when the map is flat or per-agent shaped; no hour-candidate
resolution is applied and no lookup error can be raised. -/
theorem pi_storage_map_exact_lookup (p : PIParams) (b : ℕ) (csp hsp : ℚ)
    (indoorTemp : Option ℚ) (prev : Option ℚ) (s : IState) (name : String)
    (hst : hasSub name "storage" = true) (hes : hasSub name "electrical_storage" = false) :
    (∀ (m : DeviceMap) (tbl : HourTable) (h : ℚ), alookup m name = some tbl →
      piStep p (some (RawActionMap.byDevice m)) b csp hsp indoorTemp (some h)
          name prev s = (some (dictGetHour tbl h), s))
    ∧ (∀ (tbl : HourTable) (h : ℚ), (∀ kv ∈ tbl, ((kv.1 : ℚ)) ≠ h) →
        dictGetHour tbl h = 0)
    ∧ (∀ (m : DeviceMap) (hour : Option ℚ), alookup m name = none →
        (piStep p (some (RawActionMap.byDevice m)) b csp hsp indoorTemp hour
          name prev s).1 = some 0)
    ∧ (∀ m : DeviceMap,
        (piStep p (some (RawActionMap.byDevice m)) b csp hsp indoorTemp none
          name prev s).1 = some 0)
    ∧ (∀ (f : HourTable) (hour : Option ℚ),
        (piStep p (some (RawActionMap.flat f)) b csp hsp indoorTemp hour
          name prev s).1 = some 0)
    ∧ (∀ (ms : List DeviceMap) (hour : Option ℚ),
        (piStep p (some (RawActionMap.perAgent ms)) b csp hsp indoorTemp hour
          name prev s).1 = some 0)
    ∧ (∀ (sm : RawActionMap) (hour : Option ℚ),
        ((piStep p (some sm) b csp hsp indoorTemp hour name prev s).1).isSome = true) := by
  have hneg : ¬ (hasSub name "electrical_storage" = true) := by simp [hes]
  refine ⟨?_, ?_, ?_, ?_, ?_, ?_, ?_⟩
  · intro m tbl h hml
    rw [piStep.eq_def, if_neg hneg, if_pos hst]
    dsimp only
    rw [hml]
  · intro tbl h hnone
    have hfind : tbl.find? (fun kv => decide ((kv.1 : ℚ) = h)) = none :=
      List.find?_eq_none.2 (fun x hx => by simpa using hnone x hx)
    rw [dictGetHour, hfind]
  · intro m hour hml
    cases hour with
    | none =>
      rw [piStep.eq_def, if_neg hneg, if_pos hst]
      dsimp only
      rw [hml]
    | some h =>
      rw [piStep.eq_def, if_neg hneg, if_pos hst]
      dsimp only
      rw [hml]
  · intro m
    rw [piStep.eq_def, if_neg hneg, if_pos hst]
    dsimp only
    cases halookup : alookup m name <;> rfl
  · intro f hour
    rw [piStep.eq_def, if_neg hneg, if_pos hst]
  · intro ms hour
    rw [piStep.eq_def, if_neg hneg, if_pos hst]
  · intro sm hour
    rw [piStep.eq_def, if_neg hneg, if_pos hst]
    cases sm with
    | flat f => rfl
    | perAgent ms => rfl
    | byDevice m =>
      dsimp only
      cases alookup m name with
      | none => rfl
      | some tbl => cases hour <;> rfl

theorem pi_storage_map_exact_lookup_witness :
    piStep defaultPIParams
        (some (RawActionMap.byDevice [("dhw_storage", [((3 : ℤ), (1 / 2 : ℚ))])]))
        0 24 20 none (some 3) "dhw_storage" none [] = (some (1 / 2), []) := by
  rw [(pi_storage_map_exact_lookup defaultPIParams 0 24 20 none none [] "dhw_storage"
      (by decide) (by decide)).1 [("dhw_storage", [((3 : ℤ), (1 / 2 : ℚ))])]
      [((3 : ℤ), (1 / 2 : ℚ))] 3 rfl]
  norm_num [dictGetHour, List.find?]

theorem abs_clampSym_le (x lim : ℚ) (hl : 0 ≤ lim) : |clampSym x lim| ≤ lim :=
  abs_le.2 ⟨le_max_right _ _, max_le (le_trans (min_le_right _ _) le_rfl) (by linarith)⟩

theorem inv_storeIE (L : ℚ) (s : IState) (k : ℕ × String) (v : ℚ) (hv : |v| ≤ L)
    (hs : ∀ kv ∈ s, |kv.2| ≤ L) : ∀ kv ∈ storeIE s k v, |kv.2| ≤ L := by
  intro kv hkv
  rcases mem_astore s k v kv hkv with h | h
  · rw [h]
    exact hv
  · exact hs kv h

theorem inv_calc (p : PIParams) (hL : 0 ≤ p.integral_limit) (e : ℚ) (k : ℕ × String)
    (s : IState) (hs : ∀ kv ∈ s, |kv.2| ≤ p.integral_limit) :
    ∀ kv ∈ (calculatePIAction p e k s).2, |kv.2| ≤ p.integral_limit := by
  by_cases hd : |e| ≤ p.temp_deadband
  · rw [calculatePIAction, if_pos hd]
    exact inv_storeIE _ s k 0 (by simpa using hL) hs
  · rw [calculatePIAction, if_neg hd]
    exact inv_storeIE _ s k _ (abs_clampSym_le _ _ hL) hs

theorem inv_piStep (p : PIParams) (smap : Option RawActionMap) (b : ℕ)
    (csp hsp : ℚ) (indoorTemp hour : Option ℚ) (nm : String) (prev : Option ℚ)
    (s : IState) (hL : 0 ≤ p.integral_limit)
    (hs : ∀ kv ∈ s, |kv.2| ≤ p.integral_limit) :
    ∀ kv ∈ (piStep p smap b csp hsp indoorTemp hour nm prev s).2,
      |kv.2| ≤ p.integral_limit := by
  rw [piStep.eq_def]
  split
  · split <;> exact hs
  · split
    · split
      · split
        · split <;> exact hs
        · exact hs
      · exact hs
      · split <;> exact hs
    · split
      · split
        · exact inv_calc p hL _ _ s hs
        · exact hs
      · split
        · split
          · exact inv_calc p hL _ _ s hs
          · exact hs
        · split
          · split
            · dsimp only
              split
              · exact inv_calc p hL _ _ _
                  (inv_storeIE _ s _ 0 (by simpa using hL) hs)
              · split
                · exact inv_calc p hL _ _ _
                    (inv_storeIE _ s _ 0 (by simpa using hL) hs)
                · exact inv_storeIE _ _ _ 0 (by simpa using hL)
                    (inv_storeIE _ s _ 0 (by simpa using hL) hs)
            · exact hs
          · exact hs

theorem inv_piActionsLoop (p : PIParams) (smap : Option RawActionMap) (b : ℕ)
    (csp hsp : ℚ) (indoorTemp hour : Option ℚ) (hL : 0 ≤ p.integral_limit) :
    ∀ (names : List String) (prev : Option ℚ) (s : IState),
      (∀ kv ∈ s, |kv.2| ≤ p.integral_limit) →
      ∀ kv ∈ (piActionsLoop p smap b csp hsp indoorTemp hour names prev s).2.2,
        |kv.2| ≤ p.integral_limit := by
  intro names
  induction names with
  | nil => intro prev s hs; simpa [piActionsLoop] using hs
  | cons nm rest ih =>
    intro prev s hs
    have hstep := inv_piStep p smap b csp hsp indoorTemp hour nm prev s hL hs
    rw [piActionsLoop]
    rcases hps : piStep p smap b csp hsp indoorTemp hour nm prev s with ⟨v, s'⟩
    cases v with
    | none => simpa [hps] using hstep
    | some v0 =>
      have hrest := ih (some v0) s' (by simpa [hps] using hstep)
      rcases hloop : piActionsLoop p smap b csp hsp indoorTemp hour rest (some v0) s'
        with ⟨r, pr, s''⟩
      cases r <;> simpa [hloop] using hrest

theorem inv_piAgentsLoop (p : PIParams) (smap : Option RawActionMap)
    (hL : 0 ≤ p.integral_limit) :
    ∀ (l : List (List String × List String × List ℚ)) (b : ℕ) (prev : Option ℚ)
      (s : IState), (∀ kv ∈ s, |kv.2| ≤ p.integral_limit) →
      ∀ kv ∈ (piAgentsLoop p smap b l prev s).2.2, |kv.2| ≤ p.integral_limit := by
  intro l
  induction l with
  | nil => intro b prev s hs; simpa [piAgentsLoop] using hs
  | cons hd rest ih =>
    intro b prev s hs
    obtain ⟨a, n, o⟩ := hd
    rw [piAgentsLoop]
    have hinner := inv_piActionsLoop p smap b ((extractPIObs n o).2.1.getD 24)
      ((extractPIObs n o).2.2.1.getD 20) (extractPIObs n o).1 (extractPIObs n o).2.2.2
      hL a prev s hs
    rcases hact : piActionsLoop p smap b ((extractPIObs n o).2.1.getD 24)
        ((extractPIObs n o).2.2.1.getD 20) (extractPIObs n o).1
        (extractPIObs n o).2.2.2 a prev s with ⟨vs, pr, s'⟩
    cases vs with
    | none => simpa [hact] using hinner
    | some vs0 =>
      have hrest := ih (b + 1) pr s' (by simpa [hact] using hinner)
      rcases hloop : piAgentsLoop p smap (b + 1) rest pr s' with ⟨r, pr2', s''⟩
      cases r <;> simpa [hloop] using hrest

/-- C5: every value stored in the integral-error mapping lies in
`[-integral_limit, +integral_limit]` after every operation of the controller
(every `predict` call and every `reset`), starting from the empty initial
state, for a nonnegative `integral_limit`. -/
theorem pi_integral_state_bounded (p : PIParams) (smap : Option RawActionMap)
    (hL : 0 ≤ p.integral_limit) (s : IState) (hr : PIReachable p smap s) :
    ∀ kv ∈ s, |kv.2| ≤ p.integral_limit := by
  induction hr with
  | init => intro kv hkv; simp at hkv
  | predictStep ans ons obs s0 _ ih =>
    exact inv_piAgentsLoop p smap hL (ans.zip (ons.zip obs)) 0 none s0 ih
  | resetStep s0 _ _ => intro kv hkv; simp [piResetState] at hkv

theorem piStep_demo :
    piStep defaultPIParams none 0 24 20 (some (24.2 : ℚ)) none "cooling_device"
      none [] = (some 0, [((0, "cooling"), 0)]) := by
  rw [piStep.eq_def, if_neg (by decide), if_neg (by decide), if_pos rfl]
  dsimp only
  rw [calculatePIAction, if_pos (by norm_num [defaultPIParams, abs_le])]
  rfl

theorem piActionsLoop_demo :
    piActionsLoop defaultPIParams none 0 24 20 (some (24.2 : ℚ)) none
      ["cooling_device"] none [] = (some [0], some 0, [((0, "cooling"), 0)]) := by
  simp only [piActionsLoop, piStep_demo]

theorem piAgentsLoop_demo :
    piAgentsLoop defaultPIParams none 0
      [(["cooling_device"], ["indoor_dry_bulb_temperature"], [(24.2 : ℚ)])] none [] =
      (some [[0]], some 0, [((0, "cooling"), 0)]) := by
  rw [piAgentsLoop]
  have hext : extractPIObs ["indoor_dry_bulb_temperature"] [(24.2 : ℚ)] =
      (some 24.2, none, none, none) := rfl
  rw [hext]
  dsimp only [Option.getD]
  rw [piActionsLoop_demo]
  simp only [piAgentsLoop]

theorem predict_demo_state :
    (piPredict defaultPIParams none [["cooling_device"]]
      [["indoor_dry_bulb_temperature"]] [[(24.2 : ℚ)]] []).2 =
      [((0, "cooling"), 0)] := by
  show (piAgentsLoop defaultPIParams none 0
    [(["cooling_device"], ["indoor_dry_bulb_temperature"], [(24.2 : ℚ)])] none []).2.2 = _
  rw [piAgentsLoop_demo]

theorem pi_integral_state_bounded_witness :
    |(0 : ℚ)| ≤ defaultPIParams.integral_limit :=
  pi_integral_state_bounded defaultPIParams none (by norm_num [defaultPIParams]) _
    (PIReachable.predictStep [["cooling_device"]] [["indoor_dry_bulb_temperature"]]
      [[(24.2 : ℚ)]] [] PIReachable.init) ((0, "cooling"), 0)
    (by rw [predict_demo_state]; exact List.mem_singleton.2 rfl)

theorem mem_zip_map_self {α β : Type} (g : α → β) :
    ∀ (l : List α) (pr : β × α), pr ∈ (l.map g).zip l → ∃ n ∈ l, pr = (g n, n) := by
  intro l
  induction l with
  | nil => intro pr h; simp at h
  | cons x xs ih =>
    intro pr h
    rw [List.map_cons, List.zip_cons_cons] at h
    rcases List.mem_cons.1 h with h | h
    · exact ⟨x, List.mem_cons_self x xs, h⟩
    · rcases ih pr h with ⟨n, hn, hpr⟩
      exact ⟨n, List.mem_cons_of_mem _ hn, hpr⟩

theorem missingActionsFor_eq_nil_iff (m : DeviceMap) (n : List String) :
    missingActionsFor m n = [] ↔ ∀ a ∈ n, (alookup m a).isSome := by
  rw [missingActionsFor, List.filter_eq_nil_iff]
  constructor
  · intro h a ha
    have h' := h a (List.mem_dedup.2 ha)
    cases halookup : alookup m a with
    | none => exact absurd (by simp [halookup]) h'
    | some v => simp
  · intro h a ha
    rcases Option.isSome_iff_exists.1 (h a (List.mem_dedup.1 ha)) with ⟨v, hv⟩
    simp [hv]

theorem missingActionsFor_ne_nil (m : DeviceMap) (n : List String)
    (h : missingActionsFor m n ≠ []) : ∃ a ∈ n, alookup m a = none := by
  by_contra hc
  push_neg at hc
  exact h ((missingActionsFor_eq_nil_iff m n).2 (fun a ha => by
    cases halookup : alookup m a with
    | none => exact absurd halookup (hc a ha)
    | some v => simp))

/-- C6: a flat hour table broadcasts verbatim to every device-action name of
every agent, and a device-keyed map broadcasts to each agent the sub-table
supplied for each name that agent owns (hence identical across agents sharing
the name). -/
theorem action_map_normalization (ns : List (List String)) :
    (∀ f : HourTable,
      hourRBCSetActionMap (some (RawActionMap.flat f)) ns =
        Except.ok (some (ns.map (fun n => n.dedup.map (fun a => (a, f))))) ∧
      ∀ pr ∈ (ns.map (fun n => n.dedup.map (fun a => (a, f)))).zip ns,
        ∀ a ∈ pr.2, alookup pr.1 a = some f)
    ∧ (∀ m : DeviceMap, (∀ a ∈ ns.flatten, (alookup m a).isSome) →
      hourRBCSetActionMap (some (RawActionMap.byDevice m)) ns =
        Except.ok (some (ns.map (fun n =>
          n.dedup.map (fun a => (a, (alookup m a).getD []))))) ∧
      ∀ pr ∈ (ns.map (fun n =>
          n.dedup.map (fun a => (a, (alookup m a).getD [])))).zip ns,
        ∀ a ∈ pr.2, alookup pr.1 a = alookup m a) := by
  constructor
  · intro f
    refine ⟨rfl, ?_⟩
    intro pr hpr a ha
    rcases mem_zip_map_self _ ns pr hpr with ⟨n, _, hpr'⟩
    subst hpr'
    exact alookup_map_fn (fun _ => f) n.dedup a (List.mem_dedup.2 ha)
  · intro m hcov
    have hm : (ns.flatten.dedup.filter (fun a => (alookup m a).isNone)) = [] := by
      refine List.filter_eq_nil_iff.2 (fun a ha => ?_)
      rcases Option.isSome_iff_exists.1 (hcov a (List.mem_dedup.1 ha)) with ⟨v, hv⟩
      simp [hv]
    constructor
    · rw [hourRBCSetActionMap]
      rw [hm]
      simp
    · intro pr hpr a ha
      rcases mem_zip_map_self _ ns pr hpr with ⟨n, hn, hpr'⟩
      subst hpr'
      rw [alookup_map_fn (fun a => (alookup m a).getD []) n.dedup a (List.mem_dedup.2 ha)]
      rcases Option.isSome_iff_exists.1
        (hcov a (List.mem_flatten.2 ⟨n, hn, ha⟩)) with ⟨v, hv⟩
      rw [hv]
      rfl

theorem action_map_normalization_witness :
    hourRBCSetActionMap (some (RawActionMap.byDevice [("a", [])])) [["a"]] =
      Except.ok (some [[("a", ([] : HourTable))]]) :=
  ((action_map_normalization [["a"]]).2 [("a", [])] (by decide)).1

theorem verifyAgents_none_iff :
    ∀ (i : ℕ) (ms : List DeviceMap) (nss : List (List String)),
      verifyAgents i ms nss = none ↔
        ∀ pr ∈ ms.zip nss, missingActionsFor pr.1 pr.2 = [] := by
  intro i ms
  induction ms generalizing i with
  | nil => intro nss; simp [verifyAgents]
  | cons m ms ih =>
    intro nss
    cases nss with
    | nil => simp [verifyAgents]
    | cons n nss =>
      rw [verifyAgents]
      by_cases hmiss : missingActionsFor m n = []
      · rw [if_pos hmiss, ih (i + 1) nss, List.zip_cons_cons]
        constructor
        · intro h pr hpr
          rcases List.mem_cons.1 hpr with h' | h'
          · rw [h']
            exact hmiss
          · exact h pr h'
        · intro h pr hpr
          exact h pr (List.mem_cons_of_mem _ hpr)
      · rw [if_neg hmiss, List.zip_cons_cons]
        constructor
        · intro h
          exact absurd h (by simp)
        · intro hAll
          exact absurd (hAll (m, n) (List.mem_cons_self _ _)) hmiss

theorem verifyAgents_error_shape :
    ∀ (i : ℕ) (ms : List DeviceMap) (nss : List (List String)) (e : ConfigError),
      verifyAgents i ms nss = some e →
      ∃ missing j, e = ConfigError.missingActions missing (some j) ∧ missing ≠ [] := by
  intro i ms
  induction ms generalizing i with
  | nil => intro nss e h; simp [verifyAgents] at h
  | cons m ms ih =>
    intro nss e h
    cases nss with
    | nil => simp [verifyAgents] at h
    | cons n nss =>
      rw [verifyAgents] at h
      by_cases hmiss : missingActionsFor m n = []
      · rw [if_pos hmiss] at h
        exact ih (i + 1) nss e h
      · rw [if_neg hmiss] at h
        refine ⟨missingActionsFor m n, i, ?_, hmiss⟩
        injection h with h'
        exact h'.symm

theorem exceptMap_error_iff {ε α β : Type} (f : α → β) (x : Except ε α) :
    (∃ e, x.map f = Except.error e) ↔ (∃ e, x = Except.error e) := by
  cases x <;> simp [Except.map]

theorem exists_unrec_cons (n : String) (rest : List String)
    (hrec : basicRecognized n = true) :
    (∃ x ∈ rest, basicRecognized x = false) ↔
      (∃ x ∈ n :: rest, basicRecognized x = false) := by
  constructor
  · rintro ⟨x, hx, hf⟩
    exact ⟨x, List.mem_cons_of_mem _ hx, hf⟩
  · rintro ⟨x, hx, hf⟩
    rcases List.mem_cons.1 hx with h | h
    · subst h
      rw [hrec] at hf
      cases hf
    · exact ⟨x, h, hf⟩

theorem basicTables_error_iff :
    ∀ l : List String,
      (∃ e, basicTables l = Except.error e) ↔ ∃ n ∈ l, basicRecognized n = false := by
  intro l
  induction l with
  | nil => simp [basicTables]
  | cons n rest ih =>
    by_cases h1 : hasSub n "storage" = true
    · have hrec : basicRecognized n = true := by simp [basicRecognized, h1]
      rw [basicTables, if_pos h1, exceptMap_error_iff, ih, exists_unrec_cons n rest hrec]
    · by_cases h2 : n = "cooling_device"
      · have hrec : basicRecognized n = true := by subst h2; decide
        rw [basicTables, if_neg (by simp [h1]), if_pos h2, exceptMap_error_iff, ih,
          exists_unrec_cons n rest hrec]
      · by_cases h3 : n = "heating_device"
        · have hrec : basicRecognized n = true := by subst h3; decide
          rw [basicTables, if_neg (by simp [h1]), if_neg h2, if_pos h3,
            exceptMap_error_iff, ih, exists_unrec_cons n rest hrec]
        · by_cases h4 : n = "cooling_or_heating_device"
          · have hrec : basicRecognized n = true := by subst h4; decide
            rw [basicTables, if_neg (by simp [h1]), if_neg h2, if_neg h3, if_pos h4,
              exceptMap_error_iff, ih, exists_unrec_cons n rest hrec]
          · have hrec : basicRecognized n = false := by
              simp [basicRecognized, h2, h3, h4]
              simpa using h1
            rw [basicTables, if_neg (by simp [h1]), if_neg h2, if_neg h3, if_neg h4]
            constructor
            · intro _
              exact ⟨n, List.mem_cons_self _ _, hrec⟩
            · intro _
              exact ⟨ConfigError.unknownActionName n, rfl⟩

/-- C7: setting an action map fails with a fatal configuration error at
setter time exactly when a list-shaped map's length differs from the agent
count or an agent's device-action name has no entry (the error carrying the
missing names and the agent index), when a device-keyed map omits a used
name, or, in the `BasicRBC` schedule generator with a null map, when a
device-action name matches no recognized pattern; flat maps and a null map
never fail at the `HourRBC` setter. -/
theorem setter_config_errors (ns : List (List String)) :
    (∀ f : HourTable, ∃ cm,
      hourRBCSetActionMap (some (RawActionMap.flat f)) ns = Except.ok cm)
    ∧ hourRBCSetActionMap none ns = Except.ok none
    ∧ (∀ ms : List DeviceMap,
      (∃ e, hourRBCSetActionMap (some (RawActionMap.perAgent ms)) ns = Except.error e) ↔
        (ms.length ≠ ns.length ∨ ∃ pr ∈ ms.zip ns, ∃ a ∈ pr.2, alookup pr.1 a = none))
    ∧ (∀ (ms : List DeviceMap) (e : ConfigError), ms.length = ns.length →
      hourRBCSetActionMap (some (RawActionMap.perAgent ms)) ns = Except.error e →
      ∃ missing j, e = ConfigError.missingActions missing (some j) ∧ missing ≠ [])
    ∧ (∀ m : DeviceMap,
      (∃ e, hourRBCSetActionMap (some (RawActionMap.byDevice m)) ns = Except.error e) ↔
        ∃ a ∈ ns.flatten, alookup m a = none)
    ∧ ((∃ e, basicRBCGenerate ns = Except.error e) ↔
        ∃ n ∈ ns.flatten, basicRecognized n = false) := by
  refine ⟨fun f => ⟨_, rfl⟩, rfl, ?_, ?_, ?_, ?_⟩
  · intro ms
    by_cases hlen : ms.length = ns.length
    · rw [hourRBCSetActionMap, if_pos hlen]
      cases hv : verifyAgents 0 ms ns with
      | some e =>
        constructor
        · intro _
          right
          have hnv : ¬ ∀ pr ∈ ms.zip ns, missingActionsFor pr.1 pr.2 = [] := by
            intro hAll
            rw [← verifyAgents_none_iff 0 ms ns] at hAll
            rw [hv] at hAll
            cases hAll
          push_neg at hnv
          rcases hnv with ⟨pr, hpr, hne⟩
          rcases missingActionsFor_ne_nil pr.1 pr.2 hne with ⟨a, ha, hnone⟩
          exact ⟨pr, hpr, a, ha, hnone⟩
        · intro _
          exact ⟨e, rfl⟩
      | none =>
        constructor
        · rintro ⟨e, he⟩
          cases he
        · rintro (h | ⟨pr, hpr, a, ha, hnone⟩)
          · exact absurd hlen h
          · have := (verifyAgents_none_iff 0 ms ns).1 hv pr hpr
            rcases Option.isSome_iff_exists.1
              ((missingActionsFor_eq_nil_iff pr.1 pr.2).1 this a ha) with ⟨v, hvv⟩
            rw [hvv] at hnone
            cases hnone
    · rw [hourRBCSetActionMap, if_neg hlen]
      exact ⟨fun _ => Or.inl hlen, fun _ => ⟨_, rfl⟩⟩
  · intro ms e hlen he
    rw [hourRBCSetActionMap, if_pos hlen] at he
    cases hv : verifyAgents 0 ms ns with
    | some e' =>
      rw [hv] at he
      injection he with he'
      subst he'
      exact verifyAgents_error_shape 0 ms ns _ hv
    | none =>
      rw [hv] at he
      cases he
  · intro m
    by_cases hmiss : (ns.flatten.dedup.filter (fun a => (alookup m a).isNone)) = []
    · constructor
      · rintro ⟨e, he⟩
        rw [hourRBCSetActionMap] at he
        rw [hmiss] at he
        cases he
      · rintro ⟨a, ha, hnone⟩
        have := List.filter_eq_nil_iff.1 hmiss a (List.mem_dedup.2 ha)
        rw [hnone] at this
        simp at this
    · constructor
      · intro _
        rcases List.exists_mem_of_ne_nil _ hmiss with ⟨a, ha⟩
        rcases List.mem_filter.1 ha with ⟨hmem, hisnone⟩
        refine ⟨a, List.mem_dedup.1 hmem, ?_⟩
        cases halookup : alookup m a with
        | none => rfl
        | some v => rw [halookup] at hisnone; cases hisnone
      · intro _
        refine ⟨ConfigError.missingActions
          (ns.flatten.dedup.filter (fun a => (alookup m a).isNone)) none, ?_⟩
        rw [hourRBCSetActionMap]
        rw [if_neg hmiss]
  · rw [basicRBCGenerate]
    constructor
    · intro h
      rcases (basicTables_error_iff ns.flatten.dedup).1 h with ⟨n, hn, hf⟩
      exact ⟨n, List.mem_dedup.1 hn, hf⟩
    · rintro ⟨n, hn, hf⟩
      exact (basicTables_error_iff ns.flatten.dedup).2 ⟨n, List.mem_dedup.2 hn, hf⟩

theorem setter_config_errors_witness :
    ∃ e, hourRBCSetActionMap (some (RawActionMap.byDevice [])) [["a"]] =
      Except.error e :=
  ((setter_config_errors [["a"]]).2.2.2.2.1 []).2 ⟨"a", by decide, rfl⟩

theorem pyRound_intCast (n : ℤ) : pyRound ((n : ℤ) : ℚ) = n := by
  rw [pyRound]
  norm_num

theorem hourRBCPredict_single (m : DeviceMap) (nm : String) (q : ℚ) :
    hourRBCPredict [m] [[nm]] [["hour"]] [[q]] =
      (alookup m nm).bind
        (fun tbl => (lookupHourAction tbl (pyRound q)).map (fun v => [[v]])) := by
  rw [hourRBCPredict]
  cases halookup : alookup m nm with
  | none => simp [hourAgentActions, List.mapM, List.mapM.loop, halookup]
  | some tbl =>
    cases hlook : lookupHourAction tbl (pyRound q) with
    | none => simp [hourAgentActions, List.mapM, List.mapM.loop, halookup, hlook]
    | some v =>
      simp [hourAgentActions, List.mapM, List.mapM.loop, halookup, hlook, hourRBCPredict]

theorem lookupHourAction_basicStorage (h : ℤ) (hmem : h ∈ periodicHours)
    (hcand : hourCandidates h = [h]) :
    lookupHourAction (basicDeviceTable basicStorageValue) h =
      some (basicStorageValue h) := by
  have ha : alookup (basicDeviceTable basicStorageValue) h =
      some (basicStorageValue h) := by
    rw [basicDeviceTable]
    exact alookup_map_fn basicStorageValue periodicHours h hmem
  rw [lookupHourAction, hcand,
    List.findSome?_cons_of_isSome _ (by simp [ha])]
  exact ha

/-- C9: a `BasicRBC` (the default-schedule `HourRBC`) built with no action
map over a single storage device returns action `-0.08` from `predict` at
observed hour `15` and `0.091` at observed hour `3`, matching the default
schedule bands. -/
theorem basic_default_storage_bands :
    ∃ cm : CanonicalMap,
      basicRBCSetActionMap none [["electrical_storage"]] = Except.ok (some cm) ∧
      hourRBCPredict cm [["electrical_storage"]] [["hour"]] [[(15 : ℚ)]] =
        some [[-0.08]] ∧
      hourRBCPredict cm [["electrical_storage"]] [["hour"]] [[(3 : ℚ)]] =
        some [[0.091]] := by
  refine ⟨[[("electrical_storage", basicDeviceTable basicStorageValue)]], rfl, ?_, ?_⟩
  · rw [hourRBCPredict_single _ _ _,
      show alookup [("electrical_storage", basicDeviceTable basicStorageValue)]
        "electrical_storage" = some (basicDeviceTable basicStorageValue) from rfl,
      show pyRound (15 : ℚ) = 15 from by simpa using pyRound_intCast 15]
    simp only [Option.some_bind]
    rw [lookupHourAction_basicStorage 15 (by decide) (by decide)]
    simp [basicStorageValue]
  · rw [hourRBCPredict_single _ _ _,
      show alookup [("electrical_storage", basicDeviceTable basicStorageValue)]
        "electrical_storage" = some (basicDeviceTable basicStorageValue) from rfl,
      show pyRound (3 : ℚ) = 3 from by simpa using pyRound_intCast 3]
    simp only [Option.some_bind]
    rw [lookupHourAction_basicStorage 3 (by decide) (by decide)]
    simp [basicStorageValue]

end RBC
